import Mathlib

/-!
Verification development for the hidden-retro-gems repository.

The repository is a retro-game catalog browser.  Its backend exposes a
Game Media Resolution & Cache Engine (cache inspection, image
categorization, rate-limit-aware provider fetching, filesystem
persistence) documented in `backend/IMAGE_CACHE_SYSTEM.md`,
`backend/AUTH_README.md` and `backend/RAWG_API_SETUP.md`; the frontend
(React/TypeScript) consumes it, in particular the game-detail page in
`frontend/src/components/GameDetail.tsx`.

The backend engine's Python source is not part of the available tree, so
the engine (categorizer, cache inspector, resolution orchestrator, rate
limiter, persistent-store operations) is modelled from the specification
and the backend documentation; each such definition carries a doc
comment starting with `Modelled from the spec:`.  The frontend functions
`fetchGame` (game selection from search results) and `generateTags`
(tag generation with stored-tags fallback) are translated directly from
the TypeScript source.
-/

namespace HiddenGems

/-- Boolean test that `p` is a prefix of `l`, on character lists. -/
def isPre : List Char → List Char → Bool
  | [], _ => true
  | _ :: _, [] => false
  | a :: as, b :: bs => a == b && isPre as bs

/-- Boolean substring test: does `hay` contain `needle` as a contiguous
run?  Used both for the categorizer's token matching and for the
frontend's `String.includes`. -/
def hasSubstr (hay needle : List Char) : Bool :=
  match hay with
  | [] => needle.isEmpty
  | _ :: t => isPre needle hay || hasSubstr t needle

/-- Image category: every stored image is either the cover or a
screenshot. -/
inductive Category where
  | cover
  | screenshot
deriving DecidableEq, Repr

/-- Modelled from the spec: the fixed ordered list of cover-indicating
filename tokens of the Image Categorizer (`cover_`, `boxart_`,
`background_`, `poster_`, `artwork_`), per §4.2 and
`IMAGE_CACHE_SYSTEM.md` (missing source: the categorizer inside
`game_data_service.py`). -/
def coverTokens : List String := ["cover_", "boxart_", "background_", "poster_", "artwork_"]

/-- Does the filename contain the given token? -/
def hasTok (f tok : String) : Bool := hasSubstr f.data tok.data

/-- Does the filename match any cover-indicating token? -/
def matchesCover (f : String) : Bool := coverTokens.any (fun t => hasTok f t)

/-- Modelled from the spec: `Categorize(filename) → Category` (§4.2);
cover-indicating tokens are checked first, the explicit `screenshot_`
token next, and unmatched filenames default to `screenshot` (missing
source: the categorizer inside `game_data_service.py`). -/
def categorize (f : String) : Category :=
  if matchesCover f then Category.cover
  else if hasTok f "screenshot_" then Category.screenshot
  else Category.screenshot

/-- A file persisted in a game's media directory: the provider-assigned
(or promotion-renamed) filename plus the provider it came from. -/
structure StoredFile where
  filename : String
  sourceProvider : String
deriving DecidableEq, Repr

/-- Modelled from the spec: the per-GameKey persistent-store state — the
media directory's files, the optional explicit order override, the
optional description (with its admin-authored flag), the optional tags
and `lastResolvedAt`, plus whether the store is currently failing with
an I/O error (missing source: the persistent-store layer of the
backend). -/
structure StoreState where
  assets : List StoredFile
  orderOverride : Option (List String)
  description : Option String
  adminAuthored : Bool
  tags : Option (List String)
  lastResolvedAt : Nat
  ioError : Bool
deriving Repr

/-- Modelled from the spec: a completeness policy — desired cover count
is fixed at 1, desired screenshot count is configurable (§4.1). -/
structure Policy where
  screenshotCount : Nat
deriving Repr

/-- Modelled from the spec: the default completeness policy (1 cover
plus 4 screenshots, `IMAGE_CACHE_SYSTEM.md`). -/
def defaultPolicy : Policy := ⟨4⟩

/-- Number of stored files the categorizer classifies as covers. -/
def coversOf (s : StoreState) : Nat :=
  s.assets.countP (fun a => categorize a.filename == Category.cover)

/-- Number of stored files the categorizer classifies as screenshots. -/
def screenshotsOf (s : StoreState) : Nat :=
  s.assets.countP (fun a => categorize a.filename == Category.screenshot)

/-- Modelled from the spec: the Cache Inspector's report
`CacheStatus{covers, screenshots, hasDescription, satisfiesPolicy}`
(§4.1). -/
structure CacheStatus where
  covers : Nat
  screenshots : Nat
  hasDescription : Bool
  satisfiesPolicy : Bool
deriving Repr

/-- Modelled from the spec: `Inspect(key, policy) → CacheStatus`; scans
the store's files, classifies them via the Categorizer, and reports
`satisfiesPolicy = (covers ≥ 1 ∧ screenshots ≥ policy.screenshotCount)`
(§4.1; missing source: `_get_existing_images` in
`game_data_service.py`). -/
def inspect (s : StoreState) (policy : Policy) : CacheStatus :=
  { covers := coversOf s
    screenshots := screenshotsOf s
    hasDescription := s.description.isSome
    satisfiesPolicy := decide (1 ≤ coversOf s ∧ policy.screenshotCount ≤ screenshotsOf s) }

/-- An image asset as it appears in a MediaRecord view: filename,
category and source provider. -/
structure ImageAsset where
  filename : String
  category : Category
  sourceProvider : String
deriving DecidableEq, Repr

/-- Modelled from the spec: the `MediaRecord` returned to callers —
ordered images (index 0 is the cover), optional description, optional
tags, `lastResolvedAt`, and the explicit `image_count` of the details
response (missing source: the backend's details-response assembly). -/
structure MediaRecord where
  images : List ImageAsset
  description : Option String
  tags : Option (List String)
  lastResolvedAt : Nat
  imageCount : Nat
deriving Repr

/-- Read-time view of the store's files: each file classified by the
Categorizer, as the Cache Inspector does on re-inspection. -/
def readAssets (s : StoreState) : List ImageAsset :=
  s.assets.map (fun a => ⟨a.filename, categorize a.filename, a.sourceProvider⟩)

/-- Re-flag an asset list as all screenshots. -/
def demoteAll (l : List ImageAsset) : List ImageAsset :=
  l.map (fun a => { a with category := Category.screenshot })

/-- Modelled from the spec: enforce "exactly one designated cover,
remainder screenshots" with the cover at index 0; when categorization
yields zero covers, the earliest screenshot is promoted to cover rather
than leaving the set coverless (§2, §3, §4.5; missing source: the image
ordering in `game_data_service.py`). -/
def normalizeImages : List ImageAsset → List ImageAsset
  | [] => []
  | a :: t =>
    if a.category == Category.cover then a :: demoteAll t
    else if t.any (fun x => x.category == Category.cover) then
      match normalizeImages t with
      | [] => []
      | c :: r => c :: { a with category := Category.screenshot } :: r
    else { a with category := Category.cover } :: t

/-- Modelled from the spec: reorder assets by an explicit admin order
file — position in the order list decides (stable for unmatched files,
which sort after matched ones) (§4.6 `SetOrder`). -/
def applyOrder (ord : List String) (imgs : List ImageAsset) : List ImageAsset :=
  imgs.mergeSort (fun a b => ord.indexOf a.filename ≤ ord.indexOf b.filename)

/-- Modelled from the spec: with an explicit order override the
lowest-index image gets cover priority and the remainder are
screenshots (§9 design note, and the admin UI's "the first image is the
cover"). -/
def designateFirstCover : List ImageAsset → List ImageAsset
  | [] => []
  | h :: t => { h with category := Category.cover } :: demoteAll t

/-- Modelled from the spec: the ordered image sequence of the record
for a store state — explicit order override if present (which always
takes precedence), else cover-first normalization (§4.5, §4.6). -/
def orderedImages (s : StoreState) : List ImageAsset :=
  match s.orderOverride with
  | some ord => designateFirstCover (applyOrder ord (readAssets s))
  | none => normalizeImages (readAssets s)

/-- Modelled from the spec: read the MediaRecord for a key from the
store, which is the single source of truth (§3 Ownership). -/
def readRecord (s : StoreState) : MediaRecord :=
  { images := orderedImages s
    description := s.description
    tags := s.tags
    lastResolvedAt := s.lastResolvedAt
    imageCount := (orderedImages s).length }

/-- Modelled from the spec: outcome of contacting one provider — a soft
result (optional description plus zero or more raw image filenames) or
a transport/timeout/auth failure (§4.4, §7). -/
inductive ProviderOutcome where
  | ok (desc : Option String) (images : List String)
  | unavailable
deriving Repr

/-- Modelled from the spec: one provider in the fixed-priority walk:
its identifier, whether its daily quota is already exhausted (as
reported by `RateLimiter.Acquire`), and its outcome when actually
called (§4.3, §4.4, §4.5). -/
structure Provider where
  id : String
  quotaExhausted : Bool
  outcome : ProviderOutcome
deriving Repr

/-- Modelled from the spec: `coversNeeded = max(0, 1 - covers)`
(§4.5 step 2; Nat subtraction truncates at zero). -/
def coversNeeded (s : StoreState) : Nat := 1 - coversOf s

/-- Modelled from the spec:
`screenshotsNeeded = max(0, policy.screenshotCount - screenshots)`
(§4.5 step 2). -/
def screenshotsNeeded (s : StoreState) (p : Policy) : Nat :=
  p.screenshotCount - screenshotsOf s

/-- Total image deficit of a store state under a policy. -/
def deficit (s : StoreState) (p : Policy) : Nat :=
  coversNeeded s + screenshotsNeeded s p

/-- Modelled from the spec: turn a provider's raw images into stored
files — fetch up to the remaining deficit, keep provider filenames (the
Categorizer labels them at read time), and if no cover exists yet and
the provider returned only screenshots, promote the first returned
image to cover by persisting it under a cover-token filename, so that
write-time labeling and later re-inspection agree (§4.2, §4.5 step 3d).
-/
def fetchAssets (p : Provider) (need : Nat) (imgs : List String) (noCoverYet : Bool) :
    List StoredFile :=
  let files := (imgs.take need).map (fun f => StoredFile.mk f p.id)
  if noCoverYet && files.all (fun a => categorize a.filename == Category.screenshot) then
    match files with
    | [] => []
    | h :: t => { h with filename := "cover_" ++ h.filename } :: t
  else files

/-- Modelled from the spec: one iteration of the Orchestrator's
provider walk, threading the store state and the count of provider
calls made: stop once the deficit is zero, skip quota-exhausted
providers without a call, absorb provider failures, fetch a missing
description without ever overwriting an admin-authored one, fetch up to
the deficit of images and append them to the store (§4.5 step 3,
§7). -/
def providerStep (policy : Policy) (st : StoreState × Nat) (p : Provider) :
    StoreState × Nat :=
  let (s, calls) := st
  if deficit s policy == 0 then (s, calls)
  else if p.quotaExhausted then (s, calls)
  else
    match p.outcome with
    | ProviderOutcome.unavailable => (s, calls + 1)
    | ProviderOutcome.ok desc imgs =>
        let s1 := if s.description.isNone && !s.adminAuthored then
                    { s with description := desc }
                  else s
        let newFiles := fetchAssets p (deficit s1 policy) imgs (coversOf s1 == 0)
        ({ s1 with assets := s1.assets ++ newFiles }, calls + 1)

/-- Store-level failure: only I/O errors are fatal to a resolution. -/
inductive StoreError where
  | ioError
deriving DecidableEq, Repr

/-- Successful outcome of `resolve`: the updated store, the returned
MediaRecord, and the number of provider calls performed. -/
structure ResolveOk where
  store : StoreState
  record : MediaRecord
  providerCalls : Nat
deriving Repr

/-- Modelled from the spec: `Resolve(key, policy, forceRefresh)`
(§4.5) — a store I/O error is the only failure; otherwise, unless
`forceRefresh`, a policy-satisfying cache short-circuits with the
existing record and zero provider calls; else the provider list is
walked in priority order and the partial result is accepted, with
`lastResolvedAt` updated regardless of the outcome (missing source:
`get_game_images` in `game_data_service.py`). -/
def resolve (s : StoreState) (policy : Policy) (forceRefresh : Bool)
    (providers : List Provider) (now : Nat) : Except StoreError ResolveOk :=
  if s.ioError then Except.error StoreError.ioError
  else if !forceRefresh && (inspect s policy).satisfiesPolicy then
    Except.ok ⟨s, readRecord s, 0⟩
  else
    let walked := providers.foldl (providerStep policy) (s, 0)
    let s2 := { walked.1 with lastResolvedAt := now }
    Except.ok ⟨s2, readRecord s2, walked.2⟩

/-- Modelled from the spec: the admin `SetDescription` override — the
stored description becomes admin-authored and flagged as such (§4.6).
-/
def setDescription (s : StoreState) (d : String) : StoreState :=
  { s with description := some d, adminAuthored := true }

/-- Modelled from the spec: the admin `DeleteDescription` — deletion
reverts to provider-fallback behavior, the record counting as
"description missing" again (§4.6). -/
def deleteDescription (s : StoreState) : StoreState :=
  { s with description := none, adminAuthored := false }

/-- Modelled from the spec: per-provider rate-limiter configuration —
daily quota, minimum inter-request spacing, and the length of the
rolling quota window (§4.3, `RAWG_API_SETUP.md`). -/
structure LimiterConfig where
  dailyLimit : Nat
  minInterval : Nat
  dayLength : Nat
deriving Repr

/-- Modelled from the spec: `ProviderQuota` — per-provider counters
`requestsToday`, `quotaResetAt`, `lastRequestAt` (§3). -/
structure ProviderQuota where
  requestsToday : Nat
  quotaResetAt : Nat
  lastRequestAt : Nat
deriving DecidableEq, Repr

/-- Result of `RateLimiter.Acquire`: whether the caller may proceed,
how long it must wait first, and the updated quota counters. -/
structure AcquireResult where
  proceed : Bool
  waitDuration : Nat
  quota : ProviderQuota
deriving DecidableEq, Repr

/-- Modelled from the spec: `Acquire(providerID) → (proceed, wait)`
(§4.3) — the counter resets when `now ≥ quotaResetAt`; at or above the
daily limit it returns `proceed = false` immediately with no wait;
below the limit it delays the caller exactly until the minimum
inter-request spacing is satisfied and then proceeds, incrementing the
counter (missing source: the rate limiter in `game_data_service.py`).
-/
def acquire (cfg : LimiterConfig) (q0 : ProviderQuota) (now : Nat) : AcquireResult :=
  let q := if q0.quotaResetAt ≤ now then
             { q0 with requestsToday := 0, quotaResetAt := now + cfg.dayLength }
           else q0
  if cfg.dailyLimit ≤ q.requestsToday then
    { proceed := false, waitDuration := 0, quota := q }
  else
    let wait := q.lastRequestAt + cfg.minInterval - now
    { proceed := true, waitDuration := wait
      quota := { q with requestsToday := q.requestsToday + 1
                        lastRequestAt := now + wait } }

/-- A catalog game as the frontend receives it from `/games/search`
(`GameDetail.tsx`, interface `Game`). -/
structure Game where
  title : String
  manufacturer : String
  console : String
deriving DecidableEq, Repr

/-- Character list of a string lowercased, modelling JavaScript's
`toLowerCase` on the ASCII range (`Char.toLower` maps `A`–`Z` to
`a`–`z` and leaves everything else unchanged). -/
def lowerStr (s : String) : List Char := s.data.map Char.toLower

/-- Case-insensitive string equality, as in
`g.title.toLowerCase() === gameTitle.toLowerCase()`. -/
def lcEq (a b : String) : Bool := lowerStr a == lowerStr b

/-- Case-insensitive containment `a.toLowerCase().includes(b.toLowerCase())`. -/
def lcContains (a b : String) : Bool := hasSubstr (lowerStr a) (lowerStr b)

/-- The game-selection logic of `fetchGame` in `GameDetail.tsx`: first
an exact case-insensitive title match; failing that, on a non-empty
result list, the first result whose title contains the query or is
contained in it; failing that, the first result.  `none` corresponds to
the "Játék nem található" error path. -/
def selectGame (games : List Game) (q : String) : Option Game :=
  match games.find? (fun g => lcEq g.title q) with
  | some g => some g
  | none =>
    if games.length > 0 then
      match games.find? (fun g => lcContains g.title q || lcContains q g.title) with
      | some g => some g
      | none => games.head?
    else none

/-- The fixed tag vocabulary `allTags` of `generateTags` in
`GameDetail.tsx`. -/
def allTags : List String :=
  ["Action", "Adventure", "RPG", "Platformer", "Puzzle", "Strategy", "Shooter",
   "Racing", "Simulation", "Fighting", "Hidden Gem", "Cult Classic", "Retro Gaming", "Indie"]

/-- The title hash of `generateTags`: the sum of the character codes of
the title. -/
def titleHash (title : String) : Nat := (title.data.map (fun c => c.toNat)).sum

/-- The selection loop of `generateTags`: starting from the hash, pick
`allTags[h % allTags.length]` and divide the hash by `allTags.length`,
`n` times. -/
def pickTags (h : Nat) : Nat → List String
  | 0 => []
  | n + 1 =>
      allTags.get ⟨h % allTags.length, Nat.mod_lt _ (by decide)⟩ ::
        pickTags (h / allTags.length) n

/-- First-occurrence deduplication with an accumulator of already-seen
elements, modelling JavaScript's `[...new Set(xs)]`. -/
def dedupFirstAux (seen : List String) : List String → List String
  | [] => []
  | h :: t =>
      if seen.contains h then dedupFirstAux seen t
      else h :: dedupFirstAux (h :: seen) t

/-- `[...new Set(xs)]`: keep the first occurrence of each element. -/
def dedupFirst (l : List String) : List String := dedupFirstAux [] l

/-- `generateTags` from `GameDetail.tsx`: hash the title, pick
`3 + hash % 4` tags by repeated modulus/division, and deduplicate. -/
def generateTags (title : String) : List String :=
  let hash := titleHash title
  let numTags := 3 + hash % 4
  dedupFirst (pickTags hash numTags)

/-- The detail page's tag choice (`GameDetail.tsx`):
`gameDetails?.tags && gameDetails.tags.length > 0 ? gameDetails.tags :
generateTags(game.title)`. -/
def displayTags (stored : Option (List String)) (title : String) : List String :=
  match stored with
  | some ts => if ts.length > 0 then ts else generateTags title
  | none => generateTags title

/-- A concrete store state whose assets satisfy the default policy
(1 cover, 4 screenshots), used by witnesses. -/
def satStore : StoreState :=
  { assets := [⟨"cover_a.jpg", "rawg"⟩, ⟨"screenshot_1.jpg", "rawg"⟩,
               ⟨"screenshot_2.jpg", "rawg"⟩, ⟨"screenshot_3.jpg", "rawg"⟩,
               ⟨"screenshot_4.jpg", "rawg"⟩]
    orderOverride := none
    description := none
    adminAuthored := false
    tags := none
    lastResolvedAt := 0
    ioError := false }

/-- A concrete empty, healthy store state, used by witnesses. -/
def emptyStore : StoreState :=
  { assets := []
    orderOverride := none
    description := none
    adminAuthored := false
    tags := none
    lastResolvedAt := 0
    ioError := false }

/-- A concrete provider returning only screenshots and a description,
used by witnesses. -/
def shotProvider : Provider :=
  { id := "rawg"
    quotaExhausted := false
    outcome := ProviderOutcome.ok (some "A classic platformer.")
               ["screenshot_x.jpg", "screenshot_y.jpg"] }

/-- A concrete provider that fails with a transport error, used by
witnesses. -/
def deadProvider : Provider :=
  { id := "thegamesdb"
    quotaExhausted := false
    outcome := ProviderOutcome.unavailable }

theorem length_eq_covers_add_screenshots (s : StoreState) :
    s.assets.length = coversOf s + screenshotsOf s := by
  unfold coversOf screenshotsOf
  induction s.assets with
  | nil => simp
  | cons a t ih =>
      simp only [List.countP_cons]
      cases h : categorize a.filename <;> simp [h, ih] <;> omega

theorem countP_cover_demoteAll (l : List ImageAsset) :
    (demoteAll l).countP (fun a => a.category == Category.cover) = 0 := by
  induction l with
  | nil => rfl
  | cons a t ih => simp [demoteAll, List.countP_cons, ih]

theorem normalizeImages_ne_nil (l : List ImageAsset) (h : l ≠ []) :
    normalizeImages l ≠ [] := by
  induction l with
  | nil => exact absurd rfl h
  | cons a t ih =>
    simp only [normalizeImages]
    cases hc : a.category == Category.cover with
    | true => simp
    | false =>
      cases ha : t.any (fun x => x.category == Category.cover) with
      | false => simp
      | true =>
        have ht : t ≠ [] := by rintro rfl; simp at ha
        cases hnt : normalizeImages t with
        | nil => exact absurd hnt (ih ht)
        | cons c r => simp [hnt]

theorem normalizeImages_cover (l : List ImageAsset) (h : l ≠ []) :
    ∃ c r, normalizeImages l = c :: r ∧ c.category = Category.cover ∧
      (normalizeImages l).countP (fun a => a.category == Category.cover) = 1 := by
  induction l with
  | nil => exact absurd rfl h
  | cons a t ih =>
    cases hc : a.category == Category.cover with
    | true =>
      have heq : normalizeImages (a :: t) = a :: demoteAll t := by
        simp [normalizeImages, hc]
      rw [heq]
      refine ⟨a, demoteAll t, rfl, by simpa using hc, ?_⟩
      rw [List.countP_cons_of_pos (fun x : ImageAsset => x.category == Category.cover) _ hc,
        countP_cover_demoteAll]
    | false =>
      cases ha : t.any (fun x => x.category == Category.cover) with
      | false =>
        have heq : normalizeImages (a :: t) = { a with category := Category.cover } :: t := by
          simp [normalizeImages, hc, ha]
        rw [heq]
        have ht0 : t.countP (fun x => x.category == Category.cover) = 0 := by
          rw [List.countP_eq_zero]
          intro x hx
          simpa using (List.any_eq_false.mp ha) x hx
        refine ⟨_, t, rfl, rfl, ?_⟩
        rw [List.countP_cons_of_pos (fun x : ImageAsset => x.category == Category.cover) _ (by simp), ht0]
      | true =>
        have ht : t ≠ [] := by rintro rfl; simp at ha
        obtain ⟨c, r, hcr, hcov, hcnt⟩ := ih ht
        have heq : normalizeImages (a :: t) =
            c :: { a with category := Category.screenshot } :: r := by
          simp [normalizeImages, hc, ha, hcr]
        have hctrue : (c.category == Category.cover) = true := by simp [hcov]
        rw [hcr] at hcnt
        rw [List.countP_cons_of_pos (fun x : ImageAsset => x.category == Category.cover) r hctrue] at hcnt
        have hr0 : r.countP (fun x => x.category == Category.cover) = 0 := by omega
        rw [heq]
        refine ⟨c, _, rfl, hcov, ?_⟩
        rw [List.countP_cons_of_pos (fun x : ImageAsset => x.category == Category.cover) _ hctrue,
          List.countP_cons_of_neg (fun x : ImageAsset => x.category == Category.cover) _ (by simp), hr0]

theorem normalizeImages_no_cover (l : List ImageAsset)
    (h : l.countP (fun a => a.category == Category.cover) = 0) :
    (normalizeImages l).map (fun a => a.filename) = l.map (fun a => a.filename) := by
  cases l with
  | nil => rfl
  | cons a t =>
    have hc : (a.category == Category.cover) = false := by
      by_contra hx
      simp only [Bool.not_eq_false] at hx
      rw [List.countP_cons_of_pos (fun x : ImageAsset => x.category == Category.cover) t hx] at h
      omega
    have ht0 : t.countP (fun x => x.category == Category.cover) = 0 := by
      rw [List.countP_cons_of_neg (fun x : ImageAsset => x.category == Category.cover) t (by simp [hc])] at h
      exact h
    have ha : t.any (fun x => x.category == Category.cover) = false := by
      rw [List.any_eq_false]
      intro x hx
      simpa using List.countP_eq_zero.mp ht0 x hx
    simp [normalizeImages, hc, ha]

theorem orderedImages_none (st : StoreState) (ho : st.orderOverride = none) :
    orderedImages st = normalizeImages (readAssets st) := by
  unfold orderedImages
  rw [ho]

theorem orderedImages_some (st : StoreState) (ord : List String)
    (ho : st.orderOverride = some ord) :
    orderedImages st = designateFirstCover (applyOrder ord (readAssets st)) := by
  unfold orderedImages
  rw [ho]

theorem readRecord_cover_head (st : StoreState)
    (h : (readRecord st).images ≠ []) :
    (readRecord st).images.countP (fun a => a.category == Category.cover) = 1 ∧
    ∃ c r, (readRecord st).images = c :: r ∧ c.category = Category.cover := by
  have himg : (readRecord st).images = orderedImages st := rfl
  rw [himg] at h ⊢
  cases ho : st.orderOverride with
  | none =>
    rw [orderedImages_none st ho] at h ⊢
    have hne : readAssets st ≠ [] := by
      intro he
      rw [he] at h
      exact h rfl
    obtain ⟨c, r, hcr, hcov, hcnt⟩ := normalizeImages_cover _ hne
    exact ⟨hcnt, c, r, hcr, hcov⟩
  | some ord =>
    rw [orderedImages_some st ord ho] at h ⊢
    cases hap : applyOrder ord (readAssets st) with
    | nil => rw [hap] at h; exact absurd rfl h
    | cons b t =>
      rw [hap] at h
      refine ⟨?_, _, _, rfl, rfl⟩
      simp [designateFirstCover, List.countP_cons, countP_cover_demoteAll]

theorem resolve_ok_shape (s : StoreState) (policy : Policy) (fr : Bool)
    (provs : List Provider) (now : Nat) (out : ResolveOk)
    (h : resolve s policy fr provs now = Except.ok out) :
    out.record = readRecord out.store := by
  simp only [resolve] at h
  split at h
  · exact absurd h (by simp)
  · split at h
    · rw [Except.ok.injEq] at h; subst h; rfl
    · rw [Except.ok.injEq] at h; subst h; rfl

/-- C1.  For every game key whose stored assets already satisfy the
completeness policy, `Resolve` with `forceRefresh = false` performs
zero provider calls (hence no network access) and returns the existing
MediaRecord with the store unchanged. -/
theorem resolve_cache_short_circuit (s : StoreState) (policy : Policy)
    (providers : List Provider) (now : Nat)
    (hio : s.ioError = false)
    (hsat : (inspect s policy).satisfiesPolicy = true) :
    resolve s policy false providers now = Except.ok ⟨s, readRecord s, 0⟩ := by
  simp [resolve, hio, hsat]

theorem resolve_cache_short_circuit_witness :
    resolve satStore defaultPolicy false [shotProvider, deadProvider] 7 =
      Except.ok ⟨satStore, readRecord satStore, 0⟩ :=
  resolve_cache_short_circuit satStore defaultPolicy [shotProvider, deadProvider] 7
    rfl (by decide)

theorem map_filename_readAssets (s : StoreState) :
    (readAssets s).map (fun a => a.filename) = s.assets.map (fun a => a.filename) := by
  simp [readAssets, List.map_map, Function.comp]

/-- C2.  Every MediaRecord returned by `Resolve` that contains at least
one image has exactly one image of category `cover`, and it sits at
index 0; moreover, when categorization of the stored files yields zero
covers (and no explicit order override is in play), the promotion to
cover keeps the earliest file first and does not reorder or drop any
file, i.e. the earliest screenshot is promoted rather than returning a
coverless set. -/
theorem resolve_cover_invariant (s : StoreState) (policy : Policy) (fr : Bool)
    (provs : List Provider) (now : Nat) (out : ResolveOk)
    (h : resolve s policy fr provs now = Except.ok out) :
    (out.record.images ≠ [] →
      out.record.images.countP (fun a => a.category == Category.cover) = 1 ∧
      ∃ c r, out.record.images = c :: r ∧ c.category = Category.cover) ∧
    (out.store.orderOverride = none →
      (readAssets out.store).countP (fun a => a.category == Category.cover) = 0 →
      out.record.images.map (fun a => a.filename) =
        out.store.assets.map (fun a => a.filename)) := by
  have hsh := resolve_ok_shape s policy fr provs now out h
  constructor
  · intro hne
    rw [hsh] at hne ⊢
    exact readRecord_cover_head out.store hne
  · intro ho h0
    rw [hsh]
    have himg : (readRecord out.store).images = orderedImages out.store := rfl
    rw [himg, orderedImages_none out.store ho, normalizeImages_no_cover _ h0,
      map_filename_readAssets]

theorem resolve_cover_invariant_witness :
    (∃ out, resolve emptyStore defaultPolicy false [shotProvider] 3 = Except.ok out ∧
      out.record.images.countP (fun a => a.category == Category.cover) = 1 ∧
      ∃ c r, out.record.images = c :: r ∧ c.category = Category.cover) ∧
    (∃ out, resolve emptyStore defaultPolicy false [deadProvider] 3 = Except.ok out ∧
      out.record.images.map (fun a => a.filename) =
        out.store.assets.map (fun a => a.filename)) := by
  constructor
  · obtain ⟨h1, _⟩ :=
      resolve_cover_invariant emptyStore defaultPolicy false [shotProvider] 3 _ rfl
    exact ⟨_, rfl, (h1 (by decide)).1, (h1 (by decide)).2⟩
  · obtain ⟨_, h2⟩ :=
      resolve_cover_invariant emptyStore defaultPolicy false [deadProvider] 3 _ rfl
    exact ⟨_, rfl, h2 rfl (by decide)⟩

/-- C3.  Unless the Persistent Store itself fails with an I/O error,
`Resolve` always returns a MediaRecord — even when every provider is
exhausted, unavailable or empty and the image deficit is still positive
— and the partial record carries an explicit `image_count` equal to its
number of images; with a store I/O error, and only then, the resolution
fails. -/
theorem resolve_total_except_store_io (s : StoreState) (policy : Policy) (fr : Bool)
    (provs : List Provider) (now : Nat) :
    (s.ioError = false →
      ∃ out, resolve s policy fr provs now = Except.ok out ∧
        out.record.imageCount = out.record.images.length) ∧
    (s.ioError = true →
      resolve s policy fr provs now = Except.error StoreError.ioError) := by
  constructor
  · intro hio
    unfold resolve
    rw [if_neg (by simp [hio])]
    by_cases hcond : (!fr && (inspect s policy).satisfiesPolicy) = true
    · rw [if_pos hcond]
      exact ⟨_, rfl, rfl⟩
    · rw [if_neg hcond]
      exact ⟨_, rfl, rfl⟩
  · intro hio
    simp [resolve, hio]

theorem resolve_total_except_store_io_witness :
    (∃ out, resolve emptyStore defaultPolicy false [deadProvider] 1 = Except.ok out ∧
      out.record.imageCount = out.record.images.length) ∧
    resolve { emptyStore with ioError := true } defaultPolicy false [] 1 =
      Except.error StoreError.ioError :=
  ⟨(resolve_total_except_store_io emptyStore defaultPolicy false [deadProvider] 1).1 rfl,
   (resolve_total_except_store_io { emptyStore with ioError := true }
      defaultPolicy false [] 1).2 rfl⟩

theorem providerStep_preserves_description (policy : Policy) (p : Provider)
    (st : StoreState × Nat) (h : st.1.adminAuthored = true) :
    (providerStep policy st p).1.description = st.1.description ∧
    (providerStep policy st p).1.adminAuthored = true := by
  obtain ⟨s, n⟩ := st
  have hs : s.adminAuthored = true := h
  simp only [providerStep]
  split
  · exact ⟨rfl, hs⟩
  · split
    · exact ⟨rfl, hs⟩
    · cases hp : p.outcome with
      | unavailable => simp [hp, hs]
      | ok d imgs =>
        have hguard : (s.description.isNone && !s.adminAuthored) = false := by
          simp [hs]
        simp [hp, hguard, hs]

theorem foldl_preserves_description (policy : Policy) (provs : List Provider)
    (st : StoreState × Nat) (h : st.1.adminAuthored = true) :
    (provs.foldl (providerStep policy) st).1.description = st.1.description ∧
    (provs.foldl (providerStep policy) st).1.adminAuthored = true := by
  induction provs generalizing st with
  | nil => exact ⟨rfl, h⟩
  | cons p rest ih =>
    simp only [List.foldl_cons]
    obtain ⟨h1, h2⟩ := providerStep_preserves_description policy p st h
    obtain ⟨h3, h4⟩ := ih (providerStep policy st p) h2
    exact ⟨h3.trans h1, h4⟩

/-- C4.  After `SetDescription` has stored an admin-authored description,
every subsequent `Resolve` — including one with `forceRefresh = true`
whose provider finds a description — returns and keeps that description
unchanged (and the admin flag stays set); after `DeleteDescription`, the
next `Resolve` that reaches a provider offering a description populates
the provider-sourced description again. -/
theorem admin_description_override_permanence (s : StoreState) (d e : String)
    (policy : Policy) (fr : Bool) (provs : List Provider) (now : Nat)
    (p : Provider) (imgs : List String) :
    (∀ out, resolve (setDescription s d) policy fr provs now = Except.ok out →
      out.record.description = some d ∧ out.store.description = some d ∧
      out.store.adminAuthored = true) ∧
    (s.ioError = false → s.assets = [] → p.quotaExhausted = false →
      p.outcome = ProviderOutcome.ok (some e) imgs →
      ∃ out, resolve (deleteDescription s) policy fr [p] now = Except.ok out ∧
        out.record.description = some e) := by
  constructor
  · intro out h
    simp only [resolve] at h
    split at h
    · exact absurd h (by simp)
    · split at h
      · rw [Except.ok.injEq] at h
        subst h
        exact ⟨rfl, rfl, rfl⟩
      · rw [Except.ok.injEq] at h
        subst h
        have hfold := foldl_preserves_description policy provs (setDescription s d, 0) rfl
        exact ⟨hfold.1, hfold.1, hfold.2⟩
  · intro hio hassets hq hout
    have hsatF : (inspect (deleteDescription s) policy).satisfiesPolicy = false := by
      simp [inspect, coversOf, deleteDescription, hassets]
    have hdef : (deficit (deleteDescription s) policy == 0) = false := by
      simp [deficit, coversNeeded, coversOf, deleteDescription, hassets]
    simp only [resolve]
    rw [if_neg (by simp [deleteDescription, hio])]
    rw [if_neg (by simp [hsatF])]
    simp only [List.foldl_cons, List.foldl_nil, providerStep, hdef]
    rw [if_neg (by simp)]
    rw [if_neg (by simp [hq])]
    simp only [hout]
    have hguard :
        ((deleteDescription s).description.isNone && !(deleteDescription s).adminAuthored)
          = true := by
      simp [deleteDescription]
    simp only [hguard]
    exact ⟨_, rfl, rfl⟩

theorem admin_description_override_permanence_witness :
    (∃ out, resolve (setDescription emptyStore "X") defaultPolicy true [shotProvider] 2 =
        Except.ok out ∧ out.record.description = some "X") ∧
    (∃ out, resolve (deleteDescription emptyStore) defaultPolicy true [shotProvider] 2 =
        Except.ok out ∧ out.record.description = some "A classic platformer.") := by
  constructor
  · refine ⟨_, rfl, ?_⟩
    exact ((admin_description_override_permanence emptyStore "X" "A classic platformer."
      defaultPolicy true [shotProvider] 2 shotProvider
      ["screenshot_x.jpg", "screenshot_y.jpg"]).1 _ rfl).1
  · exact (admin_description_override_permanence emptyStore "X" "A classic platformer."
      defaultPolicy true [shotProvider] 2 shotProvider
      ["screenshot_x.jpg", "screenshot_y.jpg"]).2 rfl rfl rfl rfl

/-- C5.  `Inspect` reports `satisfiesPolicy = true` iff the stored
assets hold at least 1 cover and at least `policy.screenshotCount`
screenshots; the default policy asks for 4 screenshots, so a game
satisfying the default policy with exactly the required counts holds 5
images. -/
theorem inspect_satisfies_policy_iff (s : StoreState) (p : Policy) :
    ((inspect s p).satisfiesPolicy = true ↔
      1 ≤ (inspect s p).covers ∧ p.screenshotCount ≤ (inspect s p).screenshots) ∧
    defaultPolicy.screenshotCount = 4 ∧
    ((inspect s defaultPolicy).covers = 1 ∧ (inspect s defaultPolicy).screenshots = 4 →
      (inspect s defaultPolicy).satisfiesPolicy = true ∧ s.assets.length = 5) := by
  refine ⟨by simp [inspect], rfl, ?_⟩
  rintro ⟨h1, h2⟩
  simp only [inspect] at h1 h2 ⊢
  constructor
  · simp [h1, h2, defaultPolicy]
  · rw [length_eq_covers_add_screenshots s, h1, h2]

theorem inspect_satisfies_policy_iff_witness :
    (inspect satStore defaultPolicy).covers = 1 ∧
    (inspect satStore defaultPolicy).screenshots = 4 ∧
    (inspect satStore defaultPolicy).satisfiesPolicy = true ∧
    satStore.assets.length = 5 := by
  have h := (inspect_satisfies_policy_iff satStore defaultPolicy).2.2
    ⟨by decide, by decide⟩
  exact ⟨by decide, by decide, h.1, h.2⟩

/-- C6.  `Categorize` is a pure function of the filename: filenames
matching a cover-indicating token are classified `cover` (cover tokens
are checked before the screenshot token, so this holds even when the
filename also contains `screenshot_`), filenames matching the
`screenshot_` token but no cover token are classified `screenshot`, and
unmatched filenames default to `screenshot`. -/
theorem categorize_token_rules (f : String) :
    (matchesCover f = true → categorize f = Category.cover) ∧
    (matchesCover f = false → hasTok f "screenshot_" = true →
      categorize f = Category.screenshot) ∧
    (matchesCover f = false → hasTok f "screenshot_" = false →
      categorize f = Category.screenshot) := by
  unfold categorize
  exact ⟨fun h => by simp [h], fun h hs => by simp [h, hs], fun h hs => by simp [h, hs]⟩

theorem categorize_token_rules_witness :
    categorize "boxart_zelda.png" = Category.cover ∧
    categorize "artwork_screenshot_1.jpg" = Category.cover ∧
    categorize "screenshot_mario.jpg" = Category.screenshot ∧
    categorize "random_name.webp" = Category.screenshot :=
  ⟨(categorize_token_rules "boxart_zelda.png").1 (by decide),
   (categorize_token_rules "artwork_screenshot_1.jpg").1 (by decide),
   (categorize_token_rules "screenshot_mario.jpg").2.1 (by decide) (by decide),
   (categorize_token_rules "random_name.webp").2.2 (by decide) (by decide)⟩

/-- C7.  Once a provider's `requestsToday` has reached the daily limit
(and the quota window has not rolled over), `Acquire` returns
`proceed = false` immediately with zero wait and unchanged counters, and
the Orchestrator skips a quota-exhausted provider without calling it;
below the limit, `Acquire` lets the caller proceed after a delay that is
exactly what is needed to satisfy the minimum inter-request spacing
(zero if the spacing is already satisfied). -/
theorem acquire_quota_and_spacing (cfg : LimiterConfig) (q : ProviderQuota) (now : Nat)
    (policy : Policy) (st : StoreState × Nat) (p : Provider) :
    (cfg.dailyLimit ≤ q.requestsToday → now < q.quotaResetAt →
      acquire cfg q now = ⟨false, 0, q⟩) ∧
    (q.requestsToday < cfg.dailyLimit → now < q.quotaResetAt →
      (acquire cfg q now).proceed = true ∧
      q.lastRequestAt + cfg.minInterval ≤ now + (acquire cfg q now).waitDuration ∧
      (q.lastRequestAt + cfg.minInterval ≤ now →
        (acquire cfg q now).waitDuration = 0)) ∧
    (p.quotaExhausted = true → providerStep policy st p = st) := by
  refine ⟨?_, ?_, ?_⟩
  · intro hlim hreset
    have hnr : ¬ (q.quotaResetAt ≤ now) := by omega
    simp only [acquire, if_neg hnr]
    rw [if_pos hlim]
  · intro hlim hreset
    have hnr : ¬ (q.quotaResetAt ≤ now) := by omega
    have heq : acquire cfg q now =
        ⟨true, q.lastRequestAt + cfg.minInterval - now,
         { q with requestsToday := q.requestsToday + 1
                  lastRequestAt := now + (q.lastRequestAt + cfg.minInterval - now) }⟩ := by
      simp only [acquire, if_neg hnr]
      rw [if_neg (by omega)]
    rw [heq]
    refine ⟨rfl, ?_, ?_⟩ <;> dsimp only <;> omega
  · intro hq
    obtain ⟨s, n⟩ := st
    simp only [providerStep]
    split
    · rfl
    · simp [hq]

theorem acquire_quota_and_spacing_witness :
    acquire ⟨500, 200, 86400000⟩ ⟨500, 1000000, 300⟩ 400 = ⟨false, 0, ⟨500, 1000000, 300⟩⟩ ∧
    (acquire ⟨500, 200, 86400000⟩ ⟨3, 1000000, 300⟩ 400).proceed = true ∧
    (acquire ⟨500, 200, 86400000⟩ ⟨3, 1000000, 300⟩ 400).waitDuration = 100 ∧
    providerStep defaultPolicy (emptyStore, 0) { shotProvider with quotaExhausted := true } =
      (emptyStore, 0) := by
  refine ⟨?_, ?_, by decide, ?_⟩
  · exact (acquire_quota_and_spacing ⟨500, 200, 86400000⟩ ⟨500, 1000000, 300⟩ 400
      defaultPolicy (emptyStore, 0) shotProvider).1 (by decide) (by decide)
  · exact ((acquire_quota_and_spacing ⟨500, 200, 86400000⟩ ⟨3, 1000000, 300⟩ 400
      defaultPolicy (emptyStore, 0) shotProvider).2.1 (by decide) (by decide)).1
  · exact (acquire_quota_and_spacing ⟨500, 200, 86400000⟩ ⟨3, 1000000, 300⟩ 400
      defaultPolicy (emptyStore, 0) { shotProvider with quotaExhausted := true }).2.2 rfl

/-- C9.  In the detail page's `fetchGame`: the not-found error is shown
exactly when the search result list is empty; on a non-empty list with
no case-insensitively equal title, the page selects the first result
related by containment when one exists, and otherwise falls back to the
first result of the list — so a game is always selected and displayed.
-/
theorem fetchGame_selection_fallback (games : List Game) (q : String) :
    (selectGame games q = none ↔ games = []) ∧
    (∀ g, games.find? (fun g2 => lcEq g2.title q) = none →
      games.find? (fun g2 => lcContains g2.title q || lcContains q g2.title) = some g →
      selectGame games q = some g) ∧
    (games ≠ [] →
      games.find? (fun g2 => lcEq g2.title q) = none →
      games.find? (fun g2 => lcContains g2.title q || lcContains q g2.title) = none →
      selectGame games q = games.head?) := by
  refine ⟨⟨?_, ?_⟩, ?_, ?_⟩
  · intro h
    by_contra hne
    unfold selectGame at h
    cases hf : games.find? (fun g2 => lcEq g2.title q) with
    | some g => simp [hf] at h
    | none =>
      simp only [hf] at h
      rw [if_pos (List.length_pos.mpr hne)] at h
      cases hf2 : games.find? (fun g2 => lcContains g2.title q || lcContains q g2.title) with
      | some g => simp [hf2] at h
      | none =>
        simp only [hf2] at h
        exact hne (List.head?_eq_none_iff.mp h)
  · rintro rfl
    rfl
  · intro g hf1 hf2
    have hne : games ≠ [] := by
      rintro rfl
      simp at hf2
    unfold selectGame
    simp only [hf1]
    rw [if_pos (List.length_pos.mpr hne)]
    simp [hf2]
  · intro hne hf1 hf2
    unfold selectGame
    simp only [hf1]
    rw [if_pos (List.length_pos.mpr hne)]
    simp [hf2]

theorem fetchGame_selection_fallback_witness :
    selectGame [⟨"Zelda II", "Nintendo", "NES"⟩, ⟨"Super Mario Bros", "Nintendo", "NES"⟩]
        "mario" = some ⟨"Super Mario Bros", "Nintendo", "NES"⟩ ∧
    selectGame [⟨"Zelda II", "Nintendo", "NES"⟩] "mario" =
      [(⟨"Zelda II", "Nintendo", "NES"⟩ : Game)].head? ∧
    (selectGame [] "mario" = none ↔ ([] : List Game) = []) :=
  ⟨(fetchGame_selection_fallback
      [⟨"Zelda II", "Nintendo", "NES"⟩, ⟨"Super Mario Bros", "Nintendo", "NES"⟩] "mario").2.1
      ⟨"Super Mario Bros", "Nintendo", "NES"⟩ (by decide) (by decide),
   (fetchGame_selection_fallback [⟨"Zelda II", "Nintendo", "NES"⟩] "mario").2.2
      (by decide) (by decide) (by decide),
   (fetchGame_selection_fallback [] "mario").1⟩

theorem mem_of_mem_dedupFirstAux (seen l : List String) (x : String)
    (hx : x ∈ dedupFirstAux seen l) : x ∈ l := by
  induction l generalizing seen with
  | nil => simp [dedupFirstAux] at hx
  | cons a t ih =>
    simp only [dedupFirstAux] at hx
    by_cases hc : seen.contains a = true
    · rw [if_pos hc] at hx
      exact List.mem_cons_of_mem a (ih seen hx)
    · rw [if_neg hc] at hx
      rcases List.mem_cons.mp hx with rfl | hx2
      · exact List.mem_cons_self x t
      · exact List.mem_cons_of_mem a (ih (a :: seen) hx2)

theorem not_mem_dedupFirstAux_of_seen (seen l : List String) (x : String)
    (hx : x ∈ seen) : x ∉ dedupFirstAux seen l := by
  induction l generalizing seen with
  | nil => simp [dedupFirstAux]
  | cons a t ih =>
    simp only [dedupFirstAux]
    by_cases hc : seen.contains a = true
    · rw [if_pos hc]
      exact ih seen hx
    · rw [if_neg hc]
      intro hmem
      rcases List.mem_cons.mp hmem with rfl | hx2
      · exact hc (List.elem_iff.mpr hx)
      · exact ih (a :: seen) (List.mem_cons_of_mem a hx) hx2

theorem nodup_dedupFirstAux (seen l : List String) : (dedupFirstAux seen l).Nodup := by
  induction l generalizing seen with
  | nil => simp [dedupFirstAux]
  | cons a t ih =>
    simp only [dedupFirstAux]
    by_cases hc : seen.contains a = true
    · rw [if_pos hc]
      exact ih seen
    · rw [if_neg hc]
      exact List.nodup_cons.mpr
        ⟨not_mem_dedupFirstAux_of_seen (a :: seen) t a (List.mem_cons_self a seen), ih (a :: seen)⟩

theorem length_dedupFirstAux_le (seen l : List String) :
    (dedupFirstAux seen l).length ≤ l.length := by
  induction l generalizing seen with
  | nil => simp [dedupFirstAux]
  | cons a t ih =>
    simp only [dedupFirstAux]
    by_cases hc : seen.contains a = true
    · rw [if_pos hc]
      exact Nat.le_succ_of_le (ih seen)
    · rw [if_neg hc]
      simpa using ih (a :: seen)

theorem pickTags_length (h n : Nat) : (pickTags h n).length = n := by
  induction n generalizing h with
  | zero => rfl
  | succ n ih => simp [pickTags, ih]

theorem mem_pickTags (h n : Nat) (x : String) (hx : x ∈ pickTags h n) : x ∈ allTags := by
  induction n generalizing h with
  | zero => simp [pickTags] at hx
  | succ n ih =>
    simp only [pickTags] at hx
    rcases List.mem_cons.mp hx with rfl | hx2
    · exact List.get_mem _ _ _
    · exact ih (h / allTags.length) hx2

theorem generateTags_ne_nil (title : String) : generateTags title ≠ [] := by
  show dedupFirstAux [] (pickTags (titleHash title) (3 + titleHash title % 4)) ≠ []
  cases hp : pickTags (titleHash title) (3 + titleHash title % 4) with
  | nil =>
    have hlen := pickTags_length (titleHash title) (3 + titleHash title % 4)
    rw [hp] at hlen
    simp only [List.length_nil] at hlen
    omega
  | cons a t => simp [dedupFirstAux]

/-- C10.  `generateTags` is a pure function of the title whose result is
always a duplicate-free subset of the fixed 14-element tag vocabulary
with between 1 and 6 entries, and the detail page displays exactly this
generated list whenever the stored tags are absent or empty. -/
theorem generateTags_pure_bounded (title : String) (stored : Option (List String)) :
    (generateTags title).Nodup ∧
    (∀ x ∈ generateTags title, x ∈ allTags) ∧
    allTags.length = 14 ∧
    1 ≤ (generateTags title).length ∧
    (generateTags title).length ≤ 6 ∧
    (stored = none ∨ stored = some [] → displayTags stored title = generateTags title) := by
  refine ⟨nodup_dedupFirstAux [] _, ?_, rfl, ?_, ?_, ?_⟩
  · intro x hx
    exact mem_pickTags _ _ x (mem_of_mem_dedupFirstAux [] _ x hx)
  · exact List.length_pos.mpr (generateTags_ne_nil title)
  · show (dedupFirstAux [] (pickTags (titleHash title) (3 + titleHash title % 4))).length ≤ 6
    have h1 := length_dedupFirstAux_le [] (pickTags (titleHash title) (3 + titleHash title % 4))
    have h2 := pickTags_length (titleHash title) (3 + titleHash title % 4)
    have h3 : titleHash title % 4 < 4 := Nat.mod_lt _ (by decide)
    omega
  · rintro (rfl | rfl) <;> rfl

theorem generateTags_pure_bounded_witness :
    displayTags none "Super Mario Bros" = generateTags "Super Mario Bros" ∧
    displayTags (some []) "Super Mario Bros" = generateTags "Super Mario Bros" ∧
    (generateTags "Super Mario Bros").Nodup :=
  ⟨(generateTags_pure_bounded "Super Mario Bros" none).2.2.2.2.2 (Or.inl rfl),
   (generateTags_pure_bounded "Super Mario Bros" (some [])).2.2.2.2.2 (Or.inr rfl),
   (generateTags_pure_bounded "Super Mario Bros" none).1⟩

end HiddenGems
